import Mathlib

/-!
Verification of the interactive copilot selector (`select_copilots.py`,
`select_copilots_interactive.py`).

Strings are modelled as `List Char`; Python integers as `ℤ` (the mutable
cursor and view offset can go negative in the source, so they are `ℤ`);
the selection set as `Finset ℕ`.  Fallible operations (indexing that can
raise `IndexError`, `int()` parsing that can raise `ValueError`) return
`Option`.
-/

/-- Python `str.isspace` characters relevant to `str.split()`:
space, tab, newline, carriage return, vertical tab, form feed. -/
def pyIsSpace (c : Char) : Bool :=
  c = ' ' || c = '\t' || c = '\n' || c = '\r' || c = '\x0b' || c = '\x0c'

/-- Python `str.lower()` (character-wise). -/
def pyLower (l : List Char) : List Char := l.map Char.toLower

/-- Python `str.split()` with no argument: split on runs of whitespace,
dropping empty pieces. -/
def pySplitWs (l : List Char) : List (List Char) :=
  (List.splitOnP pyIsSpace l).filter (fun x => !x.isEmpty)

/-- Python `str.strip()`: drop leading and trailing whitespace. -/
def pyStrip (l : List Char) : List Char :=
  ((l.dropWhile pyIsSpace).reverse.dropWhile pyIsSpace).reverse

/-- Python slicing `l[:n]` for a possibly negative `n`. -/
def pyTake (n : ℤ) (l : List Char) : List Char :=
  if 0 ≤ n then l.take n.toNat else l.take ((l.length : ℤ) + n).toNat

/-- Python list indexing `l[i]` with negative-index support; `none`
models an `IndexError`. -/
def pyIndex {α : Type} (l : List α) (i : ℤ) : Option α :=
  if 0 ≤ i then l[i.toNat]?
  else if 0 ≤ i + (l.length : ℤ) then l[(i + (l.length : ℤ)).toNat]? else none

/-- Python substring test `needle in hay`: some contiguous run of `hay`
equals `needle`. -/
def strContains (hay needle : List Char) : Bool :=
  (List.range (hay.length + 1)).any (fun k => needle.isPrefixOf (hay.drop k))

/-- A copilot skill record: only its `name` participates in search. -/
structure Skill where
  name : List Char
deriving DecidableEq, Inhabited

/-- A copilot record with the fields the selector reads. -/
structure Copilot where
  name : List Char
  description : List Char
  copilotId : List Char
  skills : List Skill
deriving DecidableEq, Inhabited

/-- Searchable text precomputed in `CopilotSelector.__init__`:
`" ".join([name.lower(), description.lower(), copilot_id.lower(),
" ".join(skill names lowered)])`. -/
def searchableText (c : Copilot) : List Char :=
  List.intercalate [' ']
    [pyLower c.name, pyLower c.description, pyLower c.copilotId,
     List.intercalate [' '] (c.skills.map (fun sk => pyLower sk.name))]

/-- Mutable state of `CopilotSelector` (the fields the claims are about). -/
structure SelState where
  copilots : List Copilot
  searchableTexts : List (List Char)
  selected : Finset ℕ
  currentIndex : ℤ
  searchTerm : List Char
  filteredIndices : List ℕ
  viewOffset : ℤ
deriving DecidableEq

/-- State built by `CopilotSelector.__init__`. -/
def initState (cs : List Copilot) : SelState :=
  { copilots := cs
    searchableTexts := cs.map searchableText
    selected := ∅
    currentIndex := 0
    searchTerm := []
    filteredIndices := List.range cs.length
    viewOffset := 0 }

/-- Filtered index list computed by `filter_copilots`: empty term keeps
every position; otherwise keep positions whose precomputed text contains
every whitespace token of the lowered term. -/
def filteredOf (s : SelState) : List ℕ :=
  if s.searchTerm.isEmpty then List.range s.copilots.length
  else
    let terms := pySplitWs (pyLower s.searchTerm)
    (List.range s.searchableTexts.length).filter
      (fun i => terms.all (fun t => strContains (s.searchableTexts.getD i []) t))

/-- `CopilotSelector.filter_copilots` (identical in both selector files):
recompute `filtered_indices`, clamp `current_index` when it is at least
the new length, and reset `view_offset` to 0. -/
def filterCopilots (s : SelState) : SelState :=
  { s with filteredIndices := filteredOf s
           currentIndex :=
             if ((filteredOf s).length : ℤ) ≤ s.currentIndex then
               max 0 (((filteredOf s).length : ℤ) - 1)
             else s.currentIndex
           viewOffset := 0 }

/-- `CopilotSelector.toggle_selection`: no-op on an empty filter,
otherwise toggle `filtered_indices[current_index]`; `none` models an
`IndexError` escaping the method. -/
def toggleSelection (s : SelState) : Option SelState :=
  if s.filteredIndices.isEmpty then some s
  else
    match pyIndex s.filteredIndices s.currentIndex with
    | none => none
    | some idx =>
        some { s with
               selected := if idx ∈ s.selected then s.selected.erase idx
                           else insert idx s.selected }

/-- Keystroke commands of the browsing loop in `CopilotSelector.run`,
including the live-search edits (each of which re-filters). -/
inductive Cmd
  | up | down | pgup | pgdn | space
  | selectAll | deselectAll | toggleAll
  | escClear
  | typeChar (c : Char)
  | backspace
deriving DecidableEq

/-- One iteration of the `CopilotSelector.run` dispatch (state effect of
each key); `none` models an uncaught exception. -/
def step (c : Cmd) (s : SelState) : Option SelState :=
  match c with
  | .up =>
      some (if 0 < s.currentIndex then { s with currentIndex := s.currentIndex - 1 } else s)
  | .down =>
      some (if s.currentIndex < (s.filteredIndices.length : ℤ) - 1 then
              { s with currentIndex := s.currentIndex + 1 } else s)
  | .pgup =>
      some { s with currentIndex := max 0 (s.currentIndex - 10) }
  | .pgdn =>
      some { s with
             currentIndex := min ((s.filteredIndices.length : ℤ) - 1) (s.currentIndex + 10) }
  | .space => toggleSelection s
  | .selectAll =>
      some { s with
             selected := s.filteredIndices.foldl (fun sel idx => insert idx sel) s.selected }
  | .deselectAll =>
      some { s with
             selected := s.filteredIndices.foldl (fun sel idx => sel.erase idx) s.selected }
  | .toggleAll =>
      some { s with
             selected := s.filteredIndices.foldl
                           (fun sel idx => if idx ∈ sel then sel.erase idx else insert idx sel)
                           s.selected }
  | .escClear => some (filterCopilots { s with searchTerm := [] })
  | .typeChar ch => some (filterCopilots { s with searchTerm := s.searchTerm ++ [ch] })
  | .backspace =>
      some (if s.searchTerm.isEmpty then s
            else filterCopilots { s with searchTerm := s.searchTerm.dropLast })

/-- Selector states reachable from construction by keystrokes. -/
inductive Reachable : SelState → Prop
  | init (cs : List Copilot) : Reachable (initState cs)
  | step (c : Cmd) (s s' : SelState) : Reachable s → step c s = some s' → Reachable s'

/-- Result of confirming with Enter:
`[self.copilots[i] for i in sorted(self.selected)]`. -/
def confirmedCopilots (s : SelState) : List Copilot :=
  (s.selected.sort (· ≤ ·)).map (fun i => s.copilots.getD i default)

/-- Body of an ANSI escape after `ESC [`: a run of digits and semicolons
closed by `m` (the regex `\x1b\[[0-9;]*m` of `CopilotSelector.display`);
returns the remainder after the closing `m`, or `none` when the escape
does not match. -/
def ansiBody : List Char → Option (List Char)
  | [] => none
  | c :: rest =>
      if c = 'm' then some rest
      else if c.isDigit || c = ';' then ansiBody rest
      else none

/-- Escape tail starting right after the `ESC` character: requires `[`
then a matching body. -/
def ansiTail : List Char → Option (List Char)
  | [] => none
  | c :: rest => if c = '[' then ansiBody rest else none

/-- Fuelled worker for `stripAnsi` (each step consumes at least one
character, so `length` fuel suffices). -/
def stripAnsiGo : ℕ → List Char → List Char
  | 0, l => l
  | _ + 1, [] => []
  | fuel + 1, c :: rest =>
      if c = '\x1b' then
        match ansiTail rest with
        | some rest2 => stripAnsiGo fuel rest2
        | none => c :: stripAnsiGo fuel rest
      else c :: stripAnsiGo fuel rest

/-- Model of `re.sub(r'\033\[[0-9;]*m', '', info)`: delete every
non-overlapping highlight escape, scanning left to right. -/
def stripAnsi (l : List Char) : List Char := stripAnsiGo l.length l

/-- Row-clipping logic of `CopilotSelector.display` (lines 180–185):
with `max_len = cols - 8`, a row longer than `max_len` raw characters is
truncated only when its style-stripped length also exceeds `max_len`,
and the cut is `info[:max_len-3] + "..."` on the raw string. -/
def truncateInfo (cols : ℤ) (info : List Char) : List Char :=
  if cols - 8 < (info.length : ℤ) then
    if cols - 8 < ((stripAnsi info).length : ℤ) then
      pyTake (cols - 8 - 3) info ++ ['.', '.', '.']
    else info
  else info

/-- Observable outcome of the `main` function of `select_copilots.py`:
exit status, the JSON payload printed to standard output (if any), and
the diagnostics printed to standard error. -/
structure MainResult where
  exitCode : ℕ
  stdoutPayload : Option (List Copilot)
  stderrLines : List (List Char)
deriving DecidableEq

/-- How the interactive session ended: Enter on some state, or
cancellation (`q` / Ctrl-C / KeyboardInterrupt). -/
inductive SessionEnd
  | confirmed (s : SelState)
  | cancelled

/-- Value returned by `CopilotSelector.run`: the sorted selection on
Enter, the empty list on cancellation. -/
def runReturn : SessionEnd → List Copilot
  | .confirmed s => confirmedCopilots s
  | .cancelled => []

/-- The `main` function of `select_copilots.py` after JSON parsing:
empty list check, TTY availability check, then the run/exit logic. -/
def mainModel (copilotData : List Copilot) (ttyAvailable : Bool)
    (sess : SessionEnd) : MainResult :=
  if copilotData.isEmpty then
    { exitCode := 1, stdoutPayload := none
      stderrLines := ["Error: No copilots found".toList] }
  else if !ttyAvailable then
    { exitCode := 0, stdoutPayload := some copilotData
      stderrLines := ["Error: Interactive TUI requires /dev/tty device.".toList,
                      "Selecting all copilots by default.".toList] }
  else
    let selected := runReturn sess
    if selected.isEmpty then
      { exitCode := 1, stdoutPayload := none
        stderrLines := ["No copilots selected".toList] }
    else
      { exitCode := 0, stdoutPayload := some selected, stderrLines := [] }

/-- Digit-string value for Python `int()`: all characters must be
decimal digits and there must be at least one. -/
def digitsVal (ds : List Char) : Option ℕ :=
  if !ds.isEmpty && ds.all Char.isDigit then
    some (ds.foldl (fun acc c => acc * 10 + (c.toNat - '0'.toNat)) 0)
  else none

/-- Python `int()` on an already-stripped string: optional sign followed
by decimal digits; `none` models a `ValueError`. -/
def pyInt : List Char → Option ℤ
  | '+' :: ds => (digitsVal ds).map (fun n => (n : ℤ))
  | '-' :: ds => (digitsVal ds).map (fun n => -(n : ℤ))
  | ds => (digitsVal ds).map (fun n => (n : ℤ))

/-- Comma-separated integer list as parsed inside the `try` of
`RobustCopilotSelector.fallback_selection`; `none` when any piece fails
to parse (the `except` branch is taken). -/
def parseCsv (sel : List Char) : Option (List ℤ) :=
  (sel.splitOn ',').mapM (fun x => pyInt (pyStrip x))

/-- `RobustCopilotSelector.fallback_selection` applied to the typed line:
`'all'` (case-insensitive) selects everything; an unparseable line also
selects everything; otherwise the 1-based numbers are shifted to 0-based
and the out-of-range ones are dropped. -/
def fallbackSelection (line : List Char) (copilots : List Copilot) : List Copilot :=
  let sel := pyStrip line
  if pyLower sel = "all".toList then copilots
  else
    match parseCsv sel with
    | none => copilots
    | some ns =>
        ((ns.map (fun n => n - 1)).filter
          (fun i => decide (0 ≤ i ∧ i < (copilots.length : ℤ)))).map
          (fun i => copilots.getD i.toNat default)

/-- Concrete copilot used in witnesses and counterexamples. -/
def cpA : Copilot :=
  { name := "aa".toList, description := [], copilotId := [], skills := [] }

/-- Second concrete copilot used in witnesses and counterexamples. -/
def cpB : Copilot :=
  { name := "ab".toList, description := [], copilotId := [], skills := [] }

/-- Concrete state with an empty filter (search `z` over one item). -/
def c4state : SelState :=
  filterCopilots { initState [cpA] with searchTerm := "z".toList }

/-- Fifteen visible characters with no styling. -/
def c5plain : List Char := List.replicate 15 'a'

/-- The same fifteen visible characters preceded by a highlight escape. -/
def c5styled : List Char := "\x1b[1;33m".toList ++ c5plain

example : pySplitWs "  ab  cd ".toList = ["ab".toList, "cd".toList] := by decide
example : pyIndex [10, 20, 30] (-1) = some 30 := by decide
example : pyIndex ([] : List ℕ) (-1) = none := by decide
example : strContains "hello world".toList "lo w".toList = true := by decide
example : strContains "hello".toList "z".toList = false := by decide
example : stripAnsi "ab\x1b[1;33mcd\x1b[0mef".toList = "abcdef".toList := by decide
example : stripAnsi "ab\x1b[1;3".toList = "ab\x1b[1;3".toList := by decide
example : pyInt "-42".toList = some (-42) := by decide
example : pyInt "".toList = none := by decide
example : pyInt "3a".toList = none := by decide
example : parseCsv "1, 2 ,3".toList = some [1, 2, 3] := by decide
example : parseCsv "1,foo".toList = none := by decide

example :
    ((((step (Cmd.typeChar 'z') (initState [cpA, cpB])).bind (step Cmd.pgdn)).bind
        (step Cmd.escClear)).map
      (fun s => (s.currentIndex, s.filteredIndices, s.viewOffset)))
      = some (-1, [0, 1], 0) := by decide

example :
    stripAnsi ("\x1b[1;33m".toList ++ List.replicate 15 'a')
      = stripAnsi (List.replicate 15 'a') := by decide

example :
    stripAnsi (truncateInfo 20 ("\x1b[1;33m".toList ++ List.replicate 15 'a'))
      ≠ stripAnsi (truncateInfo 20 (List.replicate 15 'a')) := by decide

/-- The executable substring test agrees with contiguous-substring
containment, the semantics of Python's `in` on strings. -/
lemma strContains_iff (hay needle : List Char) :
    strContains hay needle = true ↔ needle <:+: hay := by
  unfold strContains
  rw [List.any_eq_true]
  constructor
  · rintro ⟨k, _, hpre⟩
    rw [List.isPrefixOf_iff_prefix] at hpre
    exact hpre.isInfix.trans (List.drop_suffix k hay).isInfix
  · rintro ⟨s, t, rfl⟩
    refine ⟨s.length, ?_, ?_⟩
    · rw [List.mem_range]
      simp [List.length_append]
      omega
    · rw [List.isPrefixOf_iff_prefix, List.append_assoc, List.drop_left]
      exact ⟨t, rfl⟩

/-- Membership after repeatedly inserting the elements of a list. -/
lemma mem_foldl_insert (l : List ℕ) (sel : Finset ℕ) (i : ℕ) :
    i ∈ l.foldl (fun s j => insert j s) sel ↔ i ∈ sel ∨ i ∈ l := by
  induction l generalizing sel with
  | nil => simp
  | cons a l ih =>
      rw [List.foldl_cons, ih]
      simp only [Finset.mem_insert, List.mem_cons]
      tauto

/-- Membership after repeatedly erasing the elements of a list. -/
lemma mem_foldl_erase (l : List ℕ) (sel : Finset ℕ) (i : ℕ) :
    i ∈ l.foldl (fun s j => s.erase j) sel ↔ i ∈ sel ∧ i ∉ l := by
  induction l generalizing sel with
  | nil => simp
  | cons a l ih =>
      rw [List.foldl_cons, ih]
      simp only [Finset.mem_erase, List.mem_cons]
      tauto

/-- C1 — for every item list and search term, `filter_copilots` computes
`filtered_indices` as exactly the positions whose precomputed lowercase
searchable text contains every whitespace token of the lowercased term
as a substring (AND semantics, case-insensitive via the lowered index),
and an empty term yields all positions `0..len-1` in original order. -/
theorem c1_filter_characterization (cs : List Copilot) (t : List Char) :
    (filterCopilots { initState cs with searchTerm := t }).filteredIndices
        = (List.range cs.length).filter
            (fun i => decide (∀ tok ∈ pySplitWs (pyLower t),
                tok <:+: (cs.map searchableText).getD i []))
      ∧ (t = [] →
          (filterCopilots { initState cs with searchTerm := t }).filteredIndices
            = List.range cs.length) := by
  constructor
  · by_cases ht : t.isEmpty
    · rw [List.isEmpty_iff] at ht
      subst ht
      have hsplit : pySplitWs (pyLower []) = [] := rfl
      show List.range cs.length = _
      rw [eq_comm, List.filter_eq_self]
      intro i _
      simp [hsplit]
    · have hne : t ≠ [] := by
        intro h
        subst h
        exact ht rfl
      obtain ⟨c0, t0, rfl⟩ := List.exists_cons_of_ne_nil hne
      show (List.range (cs.map searchableText).length).filter
          (fun i => (pySplitWs (pyLower (c0 :: t0))).all
            (fun tok => strContains ((cs.map searchableText).getD i []) tok)) = _
      rw [List.length_map]
      refine List.filter_congr ?_
      intro i _
      rw [Bool.eq_iff_iff, List.all_eq_true, decide_eq_true_eq]
      constructor
      · intro h tok htok
        exact (strContains_iff _ _).mp (h tok htok)
      · intro h tok htok
        exact (strContains_iff _ _).mpr (h tok htok)
  · intro ht
    subst ht
    rfl

/-- C1 witness. -/
theorem c1_witness :
    (filterCopilots { initState [cpA, cpB] with searchTerm := "ab".toList }).filteredIndices
        = (List.range 2).filter
            (fun i => decide (∀ tok ∈ pySplitWs (pyLower "ab".toList),
                tok <:+: ([cpA, cpB].map searchableText).getD i [])) :=
  (c1_filter_characterization [cpA, cpB] "ab".toList).1

/-- C2 — confirming with Enter returns exactly the items at the positions
in `selected`, in ascending original position, with no duplicate
positions, and every returned entry is one of the original (unmodified)
item records. -/
theorem c2_confirm_sorted_selection (s : SelState)
    (h : ∀ i ∈ s.selected, i < s.copilots.length) :
    ∃ l : List ℕ, l.Sorted (· < ·) ∧ l.Nodup ∧ (∀ i, i ∈ l ↔ i ∈ s.selected) ∧
      confirmedCopilots s = l.map (fun i => s.copilots.getD i default) ∧
      ∀ x ∈ confirmedCopilots s, x ∈ s.copilots := by
  refine ⟨s.selected.sort (· ≤ ·), Finset.sort_sorted_lt _,
    Finset.sort_nodup _ _, fun i => Finset.mem_sort _, rfl, ?_⟩
  intro x hx
  unfold confirmedCopilots at hx
  rw [List.mem_map] at hx
  obtain ⟨i, hi, rfl⟩ := hx
  rw [Finset.mem_sort] at hi
  have hlt := h i hi
  rw [List.getD_eq_getElem _ _ hlt]
  exact List.getElem_mem _

/-- C2 witness. -/
theorem c2_witness :
    (∀ i ∈ ({0, 1} : Finset ℕ), i < ([cpA, cpB] : List Copilot).length) ∧
      ∃ l : List ℕ, l.Sorted (· < ·) ∧ l.Nodup ∧
        (∀ i, i ∈ l ↔ i ∈ ({0, 1} : Finset ℕ)) ∧
        confirmedCopilots { initState [cpA, cpB] with selected := {0, 1} }
          = l.map (fun i => [cpA, cpB].getD i default) ∧
        ∀ x ∈ confirmedCopilots { initState [cpA, cpB] with selected := {0, 1} },
          x ∈ ([cpA, cpB] : List Copilot) :=
  ⟨by decide,
    c2_confirm_sorted_selection { initState [cpA, cpB] with selected := {0, 1} }
      (by decide)⟩

/-- C7 — select-all-visible followed by deselect-all-visible leaves no
member of the current filter selected, while selections outside the
filter are untouched by both operations. -/
theorem c7_select_then_deselect_frame (s : SelState) :
    ∃ s1 s2, step Cmd.selectAll s = some s1 ∧ step Cmd.deselectAll s1 = some s2 ∧
      (∀ i ∈ s.filteredIndices, i ∉ s2.selected) ∧
      (∀ i, i ∉ s.filteredIndices →
        ((i ∈ s1.selected ↔ i ∈ s.selected) ∧ (i ∈ s2.selected ↔ i ∈ s.selected))) := by
  refine ⟨_, _, rfl, rfl, ?_, ?_⟩
  · intro i hi
    simp only [step, mem_foldl_erase]
    tauto
  · intro i hi
    simp only [step, mem_foldl_erase, mem_foldl_insert]
    tauto

@[simp] lemma withSearchTerm_currentIndex (s : SelState) (t : List Char) :
    ({ s with searchTerm := t } : SelState).currentIndex = s.currentIndex := rfl

@[simp] lemma withSearchTerm_selected (s : SelState) (t : List Char) :
    ({ s with searchTerm := t } : SelState).selected = s.selected := rfl

@[simp] lemma withSearchTerm_filteredIndices (s : SelState) (t : List Char) :
    ({ s with searchTerm := t } : SelState).filteredIndices = s.filteredIndices := rfl

@[simp] lemma withCurrentIndex_currentIndex (s : SelState) (x : ℤ) :
    ({ s with currentIndex := x } : SelState).currentIndex = x := rfl

@[simp] lemma withCurrentIndex_selected (s : SelState) (x : ℤ) :
    ({ s with currentIndex := x } : SelState).selected = s.selected := rfl

@[simp] lemma withCurrentIndex_filteredIndices (s : SelState) (x : ℤ) :
    ({ s with currentIndex := x } : SelState).filteredIndices = s.filteredIndices := rfl

@[simp] lemma withSelected_selected (s : SelState) (x : Finset ℕ) :
    ({ s with selected := x } : SelState).selected = x := rfl

@[simp] lemma withSelected_currentIndex (s : SelState) (x : Finset ℕ) :
    ({ s with selected := x } : SelState).currentIndex = s.currentIndex := rfl

@[simp] lemma withSelected_filteredIndices (s : SelState) (x : Finset ℕ) :
    ({ s with selected := x } : SelState).filteredIndices = s.filteredIndices := rfl

@[simp] lemma withSearchTerm_copilots (s : SelState) (t : List Char) :
    ({ s with searchTerm := t } : SelState).copilots = s.copilots := rfl

@[simp] lemma withSearchTerm_searchableTexts (s : SelState) (t : List Char) :
    ({ s with searchTerm := t } : SelState).searchableTexts = s.searchableTexts := rfl

@[simp] lemma withCurrentIndex_copilots (s : SelState) (x : ℤ) :
    ({ s with currentIndex := x } : SelState).copilots = s.copilots := rfl

@[simp] lemma withCurrentIndex_searchableTexts (s : SelState) (x : ℤ) :
    ({ s with currentIndex := x } : SelState).searchableTexts = s.searchableTexts := rfl

@[simp] lemma withSelected_copilots (s : SelState) (x : Finset ℕ) :
    ({ s with selected := x } : SelState).copilots = s.copilots := rfl

@[simp] lemma withSelected_searchableTexts (s : SelState) (x : Finset ℕ) :
    ({ s with selected := x } : SelState).searchableTexts = s.searchableTexts := rfl

@[simp] lemma filterCopilots_copilots (s : SelState) :
    (filterCopilots s).copilots = s.copilots := rfl

@[simp] lemma filterCopilots_searchableTexts (s : SelState) :
    (filterCopilots s).searchableTexts = s.searchableTexts := rfl

@[simp] lemma filterCopilots_filteredIndices (s : SelState) :
    (filterCopilots s).filteredIndices = filteredOf s := rfl

@[simp] lemma filterCopilots_currentIndex (s : SelState) :
    (filterCopilots s).currentIndex =
      if ((filteredOf s).length : ℤ) ≤ s.currentIndex then
        max 0 (((filteredOf s).length : ℤ) - 1)
      else s.currentIndex := rfl

@[simp] lemma filterCopilots_selected (s : SelState) :
    (filterCopilots s).selected = s.selected := rfl

@[simp] lemma filterCopilots_viewOffset (s : SelState) :
    (filterCopilots s).viewOffset = 0 := rfl

/-- A Python-style access with index `-1 ≤ i < length` on a non-empty
list succeeds and yields an element of the list. -/
lemma pyIndex_valid {α : Type} (l : List α) (i : ℤ) (hne : l ≠ [])
    (h1 : -1 ≤ i) (h2 : i < (l.length : ℤ)) :
    ∃ j, pyIndex l i = some j ∧ j ∈ l := by
  have hlen : 0 < l.length := List.length_pos.mpr hne
  unfold pyIndex
  by_cases h0 : 0 ≤ i
  · rw [if_pos h0]
    have hlt : i.toNat < l.length := by omega
    exact ⟨l[i.toNat], List.getElem?_eq_getElem hlt, List.getElem_mem _⟩
  · rw [if_neg h0]
    have hge : (0 : ℤ) ≤ i + (l.length : ℤ) := by omega
    rw [if_pos hge]
    have hlt : (i + (l.length : ℤ)).toNat < l.length := by omega
    exact ⟨_, List.getElem?_eq_getElem hlt, List.getElem_mem _⟩

/-- After `filter_copilots`, a cursor that was at least `-1` stays at
least `-1`, and is below the new length whenever the new filter is
non-empty. -/
lemma filterCopilots_cursor (s : SelState) (h : -1 ≤ s.currentIndex) :
    -1 ≤ (filterCopilots s).currentIndex ∧
      ((filterCopilots s).filteredIndices ≠ [] →
        (filterCopilots s).currentIndex < ((filterCopilots s).filteredIndices.length : ℤ)) := by
  rw [filterCopilots_currentIndex, filterCopilots_filteredIndices]
  constructor
  · split_ifs with hcl
    · have := le_max_left (0 : ℤ) (((filteredOf s).length : ℤ) - 1)
      omega
    · exact h
  · intro hne
    have hpos : 0 < (filteredOf s).length := List.length_pos.mpr hne
    split_ifs with hcl
    · rw [max_eq_right (by omega)]
      omega
    · omega

/-- Re-running the filter with any new term on a state whose cursor is at
least `-1` leaves `filtered_indices[current_index]` a valid (Python
semantics) access whenever the new filter is non-empty. -/
lemma refilterAccess (s1 : SelState) (h : -1 ≤ s1.currentIndex) (t : List Char)
    (hne : (filterCopilots { s1 with searchTerm := t }).filteredIndices ≠ []) :
    ∃ j, pyIndex (filterCopilots { s1 with searchTerm := t }).filteredIndices
          (filterCopilots { s1 with searchTerm := t }).currentIndex = some j ∧
        j ∈ (filterCopilots { s1 with searchTerm := t }).filteredIndices := by
  have h' : -1 ≤ ({ s1 with searchTerm := t } : SelState).currentIndex := h
  obtain ⟨h1, h2⟩ := filterCopilots_cursor { s1 with searchTerm := t } h'
  exact pyIndex_valid _ _ hne h1 (h2 hne)

/-- C7 witness. -/
theorem c7_witness :
    ∃ s1 s2, step Cmd.selectAll (initState [cpA, cpB]) = some s1 ∧
      step Cmd.deselectAll s1 = some s2 ∧
      (∀ i ∈ (initState [cpA, cpB]).filteredIndices, i ∉ s2.selected) ∧
      (∀ i, i ∉ (initState [cpA, cpB]).filteredIndices →
        ((i ∈ s1.selected ↔ i ∈ (initState [cpA, cpB]).selected) ∧
          (i ∈ s2.selected ↔ i ∈ (initState [cpA, cpB]).selected))) :=
  c7_select_then_deselect_frame (initState [cpA, cpB])

/-- C3 — code-bug exhibit: start from two items, type the search `z`
(zero matches), press PageDown (the code sets `current_index` to
`min(len(filtered)-1, ...) = -1`), then press ESC to clear the search:
`filter_copilots` re-runs, leaves `current_index = -1` (its clamp only
checks the upper bound) while the new `filtered_indices = [0, 1]` is
non-empty, violating `0 <= cursorPosition < len(filteredIndices)`;
`view_offset` is reset to 0 as claimed. -/
theorem c3_filter_cursor_bug :
    ((((step (Cmd.typeChar 'z') (initState [cpA, cpB])).bind (step Cmd.pgdn)).bind
        (step Cmd.escClear)).map
      (fun s => (s.currentIndex, s.filteredIndices, s.viewOffset)))
      = some (-1, [0, 1], 0) := by decide

/-- Packaging lemma for C4: a step that succeeds, keeps the selection,
keeps the filter empty and keeps the cursor at least `-1` satisfies the
full safe-no-op conclusion. -/
lemma c4_conclude (s s1 : SelState) (c : Cmd) (hstep : step c s = some s1)
    (hsel : s1.selected = s.selected) (hfil : s1.filteredIndices = [])
    (hcur : -1 ≤ s1.currentIndex) :
    ∃ s1', step c s = some s1' ∧ s1'.selected = s.selected ∧
      s1'.filteredIndices = [] ∧ -1 ≤ s1'.currentIndex ∧
      ∀ t : List Char,
        (filterCopilots { s1' with searchTerm := t }).filteredIndices ≠ [] →
        ∃ j, pyIndex (filterCopilots { s1' with searchTerm := t }).filteredIndices
              (filterCopilots { s1' with searchTerm := t }).currentIndex = some j ∧
          j ∈ (filterCopilots { s1' with searchTerm := t }).filteredIndices :=
  ⟨s1, hstep, hsel, hfil, hcur, fun t hne => refilterAccess s1 hcur t hne⟩

/-- C4 — with an empty filter, every browsing navigation or selection
command succeeds without an error, changes no membership of `selected`,
leaves the filter empty, and leaves the cursor such that once a later
re-filter produces a non-empty `filtered_indices`, the access
`filtered_indices[current_index]` performed by toggling is valid and
lands on a member of the filter. -/
theorem c4_empty_filter_safe (s : SelState) (c : Cmd)
    (hf : s.filteredIndices = []) (hc : -1 ≤ s.currentIndex)
    (hmem : c ∈ [Cmd.up, Cmd.down, Cmd.pgup, Cmd.pgdn, Cmd.space,
                 Cmd.selectAll, Cmd.deselectAll, Cmd.toggleAll]) :
    ∃ s1, step c s = some s1 ∧ s1.selected = s.selected ∧
      s1.filteredIndices = [] ∧ -1 ≤ s1.currentIndex ∧
      ∀ t : List Char,
        (filterCopilots { s1 with searchTerm := t }).filteredIndices ≠ [] →
        ∃ j, pyIndex (filterCopilots { s1 with searchTerm := t }).filteredIndices
              (filterCopilots { s1 with searchTerm := t }).currentIndex = some j ∧
          j ∈ (filterCopilots { s1 with searchTerm := t }).filteredIndices := by
  have hlen : (s.filteredIndices.length : ℤ) = 0 := by rw [hf]; rfl
  simp only [List.mem_cons, List.not_mem_nil, or_false] at hmem
  rcases hmem with rfl | rfl | rfl | rfl | rfl | rfl | rfl | rfl
  · refine c4_conclude s _ _ rfl ?_ ?_ ?_
    · split <;> simp
    · split <;> simp [hf]
    · split
      · simp
        omega
      · exact hc
  · refine c4_conclude s _ _ rfl ?_ ?_ ?_
    · split <;> simp
    · split <;> simp [hf]
    · split
      · simp
        omega
      · exact hc
  · refine c4_conclude s _ _ rfl (by simp) (by simp [hf]) ?_
    simp only [withCurrentIndex_currentIndex]
    have := le_max_left (0 : ℤ) (s.currentIndex - 10)
    omega
  · refine c4_conclude s _ _ rfl (by simp) (by simp [hf]) ?_
    simp only [withCurrentIndex_currentIndex]
    exact le_min (by omega) (by omega)
  · refine c4_conclude s s Cmd.space ?_ rfl hf hc
    show toggleSelection s = some s
    unfold toggleSelection
    rw [if_pos (by rw [hf]; rfl)]
  · exact c4_conclude s _ _ rfl (by simp [hf]) (by simp [hf]) (by simp [hc])
  · exact c4_conclude s _ _ rfl (by simp [hf]) (by simp [hf]) (by simp [hc])
  · exact c4_conclude s _ _ rfl (by simp [hf]) (by simp [hf]) (by simp [hc])

/-- C4 witness. -/
theorem c4_witness :
    ∃ s1, step Cmd.pgdn c4state = some s1 ∧ s1.selected = c4state.selected ∧
      s1.filteredIndices = [] ∧ -1 ≤ s1.currentIndex ∧
      ∀ t : List Char,
        (filterCopilots { s1 with searchTerm := t }).filteredIndices ≠ [] →
        ∃ j, pyIndex (filterCopilots { s1 with searchTerm := t }).filteredIndices
              (filterCopilots { s1 with searchTerm := t }).currentIndex = some j ∧
          j ∈ (filterCopilots { s1 with searchTerm := t }).filteredIndices :=
  c4_empty_filter_safe c4state Cmd.pgdn (by decide) (by decide) (by decide)

/-- C8 — on a state with a non-empty filter and an in-bounds cursor (the
invariant of the running selector), toggling the current item twice in
succession restores `selected` exactly. -/
theorem c8_toggle_twice_restores (s : SelState) (hne : s.filteredIndices ≠ [])
    (h1 : -1 ≤ s.currentIndex) (h2 : s.currentIndex < (s.filteredIndices.length : ℤ)) :
    ∃ s1 s2, step Cmd.space s = some s1 ∧ step Cmd.space s1 = some s2 ∧
      s2.selected = s.selected := by
  obtain ⟨j, hj, _⟩ := pyIndex_valid s.filteredIndices s.currentIndex hne h1 h2
  have hEmpty : ¬s.filteredIndices.isEmpty = true := by
    rw [List.isEmpty_iff]
    exact hne
  by_cases hjs : j ∈ s.selected
  · refine ⟨{ s with selected := s.selected.erase j },
      { s with selected := insert j (s.selected.erase j) }, ?_, ?_, ?_⟩
    · show toggleSelection s = _
      unfold toggleSelection
      rw [if_neg hEmpty, hj]
      simp [hjs]
    · show toggleSelection _ = _
      unfold toggleSelection
      rw [if_neg hEmpty, hj]
      simp [Finset.not_mem_erase j s.selected]
    · simp only [withSelected_selected]
      exact Finset.insert_erase hjs
  · refine ⟨{ s with selected := insert j s.selected },
      { s with selected := (insert j s.selected).erase j }, ?_, ?_, ?_⟩
    · show toggleSelection s = _
      unfold toggleSelection
      rw [if_neg hEmpty, hj]
      simp [hjs]
    · show toggleSelection _ = _
      unfold toggleSelection
      rw [if_neg hEmpty, hj]
      simp
    · simp only [withSelected_selected]
      exact Finset.erase_insert hjs

/-- C8 witness. -/
theorem c8_witness :
    ∃ s1 s2, step Cmd.space (initState [cpA]) = some s1 ∧
      step Cmd.space s1 = some s2 ∧ s2.selected = (initState [cpA]).selected :=
  c8_toggle_twice_restores (initState [cpA]) (by decide) (by decide) (by decide)

/-- Whenever the searchable texts are the precomputed map of the items,
the recomputed filter list is a sublist of `range len(items)`. -/
lemma filteredOf_sublist (u : SelState)
    (hT : u.searchableTexts = u.copilots.map searchableText) :
    (filteredOf u).Sublist (List.range u.copilots.length) := by
  unfold filteredOf
  split_ifs
  · exact List.Sublist.refl _
  · rw [hT, List.length_map]
    exact List.filter_sublist _

/-- Reachability invariant: the searchable texts stay the precomputed
index of the (never mutated) item list, and `filtered_indices` is always
a sublist of `range len(items)`. -/
lemma reachable_invariant (s : SelState) (h : Reachable s) :
    s.searchableTexts = s.copilots.map searchableText ∧
      s.filteredIndices.Sublist (List.range s.copilots.length) := by
  induction h with
  | init cs => exact ⟨rfl, List.Sublist.refl _⟩
  | step c s s' _ hstep ih =>
      obtain ⟨ihT, ihF⟩ := ih
      cases c with
      | up =>
          simp only [step] at hstep
          obtain rfl := Option.some.inj hstep
          constructor
          · split <;> simpa using ihT
          · split <;> simpa using ihF
      | down =>
          simp only [step] at hstep
          obtain rfl := Option.some.inj hstep
          constructor
          · split <;> simpa using ihT
          · split <;> simpa using ihF
      | pgup =>
          simp only [step] at hstep
          obtain rfl := Option.some.inj hstep
          exact ⟨by simpa using ihT, by simpa using ihF⟩
      | pgdn =>
          simp only [step] at hstep
          obtain rfl := Option.some.inj hstep
          exact ⟨by simpa using ihT, by simpa using ihF⟩
      | space =>
          simp only [step, toggleSelection] at hstep
          split at hstep
          · obtain rfl := Option.some.inj hstep
            exact ⟨ihT, ihF⟩
          · split at hstep
            · exact absurd hstep (by simp)
            · obtain rfl := Option.some.inj hstep
              exact ⟨by simpa using ihT, by simpa using ihF⟩
      | selectAll =>
          simp only [step] at hstep
          obtain rfl := Option.some.inj hstep
          exact ⟨by simpa using ihT, by simpa using ihF⟩
      | deselectAll =>
          simp only [step] at hstep
          obtain rfl := Option.some.inj hstep
          exact ⟨by simpa using ihT, by simpa using ihF⟩
      | toggleAll =>
          simp only [step] at hstep
          obtain rfl := Option.some.inj hstep
          exact ⟨by simpa using ihT, by simpa using ihF⟩
      | escClear =>
          simp only [step] at hstep
          obtain rfl := Option.some.inj hstep
          refine ⟨by simpa using ihT, ?_⟩
          have hsub := filteredOf_sublist { s with searchTerm := ([] : List Char) }
            (by simpa using ihT)
          simpa using hsub
      | typeChar ch =>
          simp only [step] at hstep
          obtain rfl := Option.some.inj hstep
          refine ⟨by simpa using ihT, ?_⟩
          have hsub := filteredOf_sublist { s with searchTerm := s.searchTerm ++ [ch] }
            (by simpa using ihT)
          simpa using hsub
      | backspace =>
          simp only [step] at hstep
          obtain rfl := Option.some.inj hstep
          constructor
          · split
            · simpa using ihT
            · simpa using ihT
          · split
            · simpa using ihF
            · have hsub := filteredOf_sublist { s with searchTerm := s.searchTerm.dropLast }
                (by simpa using ihT)
              simpa using hsub

/-- C6 (amended) — in every reachable selector state, `filtered_indices`
is a sublist of `range len(items)`: a subset of the valid positions (not
necessarily strict), listed in original order without duplicates. -/
theorem c6_filtered_sublist_of_range (s : SelState) (h : Reachable s) :
    s.filteredIndices.Sublist (List.range s.copilots.length) :=
  (reachable_invariant s h).2

/-- C6 counterexample to strictness: the initial state (reachable, empty
search) has `filtered_indices` equal to the full position range, which is
not a strict subset of `0..len(items)-1`. -/
theorem c6_not_strict_counterexample :
    Reachable (initState [cpA]) ∧
      ¬((initState [cpA]).filteredIndices.toFinset
          ⊂ Finset.range (initState [cpA]).copilots.length) :=
  ⟨Reachable.init [cpA], by decide⟩

/-- C6 witness. -/
theorem c6_witness :
    (initState [cpA, cpB]).filteredIndices.Sublist
      (List.range (initState [cpA, cpB]).copilots.length) :=
  c6_filtered_sublist_of_range (initState [cpA, cpB]) (Reachable.init [cpA, cpB])

/-- Consuming an escape body never lengthens the remainder. -/
lemma ansiBody_length {l r : List Char} (h : ansiBody l = some r) :
    r.length ≤ l.length := by
  induction l generalizing r with
  | nil => exact absurd h (by simp [ansiBody])
  | cons c rest ih =>
      unfold ansiBody at h
      by_cases h1 : c = 'm'
      · rw [if_pos h1] at h
        obtain rfl := Option.some.inj h
        simp
      · rw [if_neg h1] at h
        by_cases h2 : c.isDigit || c = ';'
        · rw [if_pos h2] at h
          have := ih h
          simp only [List.length_cons]
          omega
        · rw [if_neg h2] at h
          exact absurd h (by simp)

/-- Consuming a full escape tail never lengthens the remainder. -/
lemma ansiTail_length {l r : List Char} (h : ansiTail l = some r) :
    r.length ≤ l.length := by
  cases l with
  | nil => exact absurd h (by simp [ansiTail])
  | cons c rest =>
      simp only [ansiTail] at h
      by_cases h1 : c = '['
      · rw [if_pos h1] at h
        have := ansiBody_length h
        simp only [List.length_cons]
        omega
      · rw [if_neg h1] at h
        exact absurd h (by simp)

/-- Stripping escapes never lengthens a string. -/
lemma stripAnsiGo_length (f : ℕ) (l : List Char) :
    (stripAnsiGo f l).length ≤ l.length := by
  induction f generalizing l with
  | zero => exact le_refl _
  | succ f ih =>
      cases l with
      | nil => simp [stripAnsiGo]
      | cons c rest =>
          unfold stripAnsiGo
          split_ifs
          · cases hmatch : ansiTail rest with
            | none =>
                simp only [hmatch, List.length_cons]
                have := ih rest
                simp
                omega
            | some rest2 =>
                simp only [hmatch]
                have ha := ansiTail_length hmatch
                have := ih rest2
                simp
                omega
          · have := ih rest
            simp
            omega

/-- Stripping escape codes never lengthens a string. -/
lemma stripAnsi_length (l : List Char) : (stripAnsi l).length ≤ l.length :=
  stripAnsiGo_length _ _

/-- C5 counterexample — two rows with identical visible (style-stripped)
text truncate to different visible text at terminal width 20: the cut at
`info[:max_len-3]` is taken in the raw string, so the styled row loses
seven visible characters to its escape code.  The truncation cut is
therefore determined by the raw character count including styling codes,
contradicting the claim. -/
theorem c5_raw_cut_counterexample :
    stripAnsi c5styled = stripAnsi c5plain ∧
      stripAnsi (truncateInfo 20 c5styled) ≠ stripAnsi (truncateInfo 20 c5plain) := by
  constructor
  · decide
  · decide

/-- C5 (amended) — the truncation decision uses the visible
(style-stripped) character count: a row whose stripped length fits
`max_len = cols - 8` is never cut (its visible text is displayed in
full), and for `cols ≥ 11` the stripped length of the displayed row
never exceeds `max_len`; but when a row is cut, the cut position is
taken in the raw string including styling codes. -/
theorem c5_visible_width_bound (cols : ℤ) (info : List Char) :
    (((stripAnsi info).length : ℤ) ≤ cols - 8 →
        stripAnsi (truncateInfo cols info) = stripAnsi info) ∧
      (11 ≤ cols → ((stripAnsi (truncateInfo cols info)).length : ℤ) ≤ cols - 8) := by
  constructor
  · intro hv
    unfold truncateInfo
    split_ifs with h1 h2
    · exact absurd h2 (by omega)
    · rfl
    · rfl
  · intro hcols
    unfold truncateInfo
    split_ifs with h1 h2
    · have hstrip := stripAnsi_length (pyTake (cols - 8 - 3) info ++ ['.', '.', '.'])
      rw [List.length_append] at hstrip
      have htake : (pyTake (cols - 8 - 3) info).length ≤ (cols - 8 - 3).toNat := by
        unfold pyTake
        rw [if_pos (by omega)]
        simp
      simp only [List.length_cons, List.length_nil] at hstrip
      omega
    · omega
    · have := stripAnsi_length info
      omega

/-- C5 witness. -/
theorem c5_witness :
    ((stripAnsi (truncateInfo 20 c5plain)).length : ℤ) ≤ 20 - 8 :=
  (c5_visible_width_bound 20 c5plain).2 (by decide)

/-- C9 — an empty input array, or a session (so a TTY is present) that
ends by cancellation or with zero selected items, makes the process exit
non-zero, print a diagnostic on standard error, and write no selection
payload to standard output. -/
theorem c9_failure_exit (data : List Copilot) (tty : Bool) (sess : SessionEnd)
    (h : data = [] ∨ (tty = true ∧ runReturn sess = [])) :
    (mainModel data tty sess).exitCode ≠ 0 ∧
      (mainModel data tty sess).stdoutPayload = none ∧
      (mainModel data tty sess).stderrLines ≠ [] := by
  unfold mainModel
  rcases h with rfl | ⟨rfl, hrun⟩
  · simp
  · by_cases hd : data.isEmpty
    · rw [if_pos hd]
      simp
    · rw [if_neg hd]
      simp only [Bool.not_true, Bool.false_eq_true, if_false]
      rw [hrun]
      simp

/-- C9 witness: empty input and cancellation both hit the failure path. -/
theorem c9_witness :
    ((mainModel [] true SessionEnd.cancelled).exitCode ≠ 0 ∧
        (mainModel [] true SessionEnd.cancelled).stdoutPayload = none ∧
        (mainModel [] true SessionEnd.cancelled).stderrLines ≠ []) ∧
      ((mainModel [cpA] true SessionEnd.cancelled).exitCode ≠ 0 ∧
        (mainModel [cpA] true SessionEnd.cancelled).stdoutPayload = none ∧
        (mainModel [cpA] true SessionEnd.cancelled).stderrLines ≠ []) :=
  ⟨c9_failure_exit [] true SessionEnd.cancelled (Or.inl rfl),
   c9_failure_exit [cpA] true SessionEnd.cancelled (Or.inr ⟨rfl, rfl⟩)⟩

/-- C10 — in the degraded fallback mode, a line that is neither `all` nor
a parseable comma-separated integer list returns the whole item list,
and when the line does parse, exactly the numbers inside `1..len(items)`
survive (out-of-range ones are silently dropped) and are mapped to their
items. -/
theorem c10_fallback_semantics (line : List Char) (cs : List Copilot) :
    (pyLower (pyStrip line) ≠ "all".toList → parseCsv (pyStrip line) = none →
        fallbackSelection line cs = cs) ∧
      (∀ ns, pyLower (pyStrip line) ≠ "all".toList →
        parseCsv (pyStrip line) = some ns →
        fallbackSelection line cs =
          (ns.filter (fun k => decide (1 ≤ k ∧ k ≤ (cs.length : ℤ)))).map
            (fun k => cs.getD (k - 1).toNat default)) := by
  constructor
  · intro hall hparse
    unfold fallbackSelection
    rw [if_neg hall, hparse]
  · intro ns hall hparse
    unfold fallbackSelection
    rw [if_neg hall, hparse]
    show ((ns.map (fun n => n - 1)).filter _).map _ = _
    rw [List.filter_map, List.map_map]
    have hpred : ∀ k : ℤ,
        ((fun i => decide (0 ≤ i ∧ i < (cs.length : ℤ))) ∘ (fun n => n - 1)) k
          = (fun k : ℤ => decide (1 ≤ k ∧ k ≤ (cs.length : ℤ))) k := by
      intro k
      simp only [Function.comp_apply, decide_eq_decide]
      omega
    rw [List.filter_congr (fun k _ => hpred k)]
    rfl

/-- C10 witness: an unparseable line returns everything; `1, 99` on two
items keeps only the in-range number 1. -/
theorem c10_witness :
    fallbackSelection "hello".toList [cpA] = [cpA] ∧
      fallbackSelection " 1, 99 ".toList [cpA, cpB] =
        (([1, 99] : List ℤ).filter
            (fun k => decide (1 ≤ k ∧ k ≤ (([cpA, cpB] : List Copilot).length : ℤ)))).map
          (fun k => ([cpA, cpB] : List Copilot).getD (k - 1).toNat default) :=
  ⟨(c10_fallback_semantics "hello".toList [cpA]).1 (by decide) (by decide),
   (c10_fallback_semantics " 1, 99 ".toList [cpA, cpB]).2 [1, 99] (by decide) (by decide)⟩
